import Mathlib

/-
Formal model of src/Blender/Scripts/ImpostorGenerator.py from the RedHood
repository.

Modelling conventions: Blender float pixel values are modelled as rationals
(List Rat for the flat RGBA arrays), Python integer arithmetic as Nat / Int,
Python float division of integers as exact division in Rat, and a Python
statement that raises an exception is modelled by an Option result (none =
the exception propagates).  Scene state toggled by the orchestrator is an
explicit record threaded through the functions.
-/

namespace ImpostorGen

/-- Module constant HORIZONTAL_ANGLES = 8, the number of intersecting planes. -/
def HORIZONTAL_ANGLES : ℕ := 8

/-- Module constant BASE_RESOLUTION = 512, the resolution per atlas cell. -/
def BASE_RESOLUTION : ℕ := 512

/-- One corner of a bound box in world space: an (x, y, z) triple. -/
abbrev Corner := ℚ × ℚ × ℚ

/-- Minimum z over the corner list, as in min(c.z for c in corners); the
source always passes the 8 bound box corners, so the empty case (where the
Python min would raise) is given the junk value 0. -/
def minZ : List Corner → ℚ
  | [] => 0
  | c :: cs => cs.foldl (fun a d => min a d.2.2) c.2.2

/-- Maximum z over the corner list, as in max(c.z for c in corners). -/
def maxZ : List Corner → ℚ
  | [] => 0
  | c :: cs => cs.foldl (fun a d => max a d.2.2) c.2.2

/-- Squared horizontal distance of corner c from the spine (ox, oy), the
dist_sq = (c.x - spine_x)**2 + (c.y - spine_y)**2 of the source. -/
def distSq (c : Corner) (ox oy : ℚ) : ℚ := (c.1 - ox) ^ 2 + (c.2.1 - oy) ^ 2

/-- The max_radius_sq loop of get_tight_bounds_and_aspect: starts at 0 and
keeps the largest squared distance seen. -/
def maxRadiusSq (corners : List Corner) (ox oy : ℚ) : ℚ :=
  corners.foldl (fun acc c => if distSq c ox oy > acc then distSq c ox oy else acc) 0

/-- A Blender object as the script sees it: whether obj.type == MESH, its
world space bound box corners, and the horizontal position of its origin
(obj.location.x, obj.location.y). -/
structure BObject where
  isMesh : Bool
  corners : List Corner
  locX : ℚ
  locY : ℚ
deriving DecidableEq

/-- Embeds get_tight_bounds_and_aspect.  The source returns
(width, height, min_z, mid_z, max_z) with width = 2 * sqrt(max_radius_sq);
since that square root is irrational in general, the first slot here holds
max_radius_sq instead, and the theorems relate it to the radius through
Real.sqrt.  The non-mesh early return (2.0, 2.0, -1.0, 0.0, 1.0) of the
source, width 2 and so radius 1, therefore appears here as (1, 2, -1, 0, 1). -/
def get_tight_bounds_and_aspect (obj : BObject) : ℚ × ℚ × ℚ × ℚ × ℚ :=
  if obj.isMesh = false then (1, 2, -1, 0, 1)
  else
    let mn := minZ obj.corners
    let mx := maxZ obj.corners
    (maxRadiusSq obj.corners obj.locX obj.locY, mx - mn, mn, (mn + mx) / 2, mx)

/-- How generate_impostor finds its target: TARGET_OBJECT_NAME set (carrying
the result of the name lookup, which may be none) or the selection list. -/
inductive TargetConfig
  | byName (lookup : Option BObject)
  | selected (objs : List BObject)

/-- Outcome of the target resolution and bounds stage of generate_impostor. -/
inductive BoundsOutcome
  | noTargetReturn
  | attributeError
  | proceeds (bounds : ℚ × ℚ × ℚ × ℚ × ℚ)
deriving DecidableEq

/-- The head of generate_impostor: with TARGET_OBJECT_NAME set, a failed
lookup leaves target = None and the obj.type access inside
get_tight_bounds_and_aspect raises AttributeError; with no name and an empty
selection the function prints an error and returns early; otherwise the
bounds of the resolved object are computed and the pipeline proceeds. -/
def resolve_and_bounds : TargetConfig → BoundsOutcome
  | .byName none => .attributeError
  | .byName (some obj) => .proceeds (get_tight_bounds_and_aspect obj)
  | .selected [] => .noTargetReturn
  | .selected (obj :: _) => .proceeds (get_tight_bounds_and_aspect obj)

/-- Python int() on the rationals arising here: truncation toward zero, the
floor on nonnegative arguments and the ceiling on negative ones. -/
def pyInt (q : ℚ) : ℤ := if 0 ≤ q then ⌊q⌋ else ⌈q⌉

/-- The evening step of setup_render_settings: if v % 2 != 0 then v += 1. -/
def evenize (n : ℤ) : ℤ := if n % 2 ≠ 0 then n + 1 else n

/-- The scene render and shading state the script touches.  filepath holds
the index of the last temp render path written into scene.render.filepath. -/
structure RenderScene where
  engine : String
  shadingLight : String
  shadingColorType : String
  showShadows : Bool
  filmTransparent : Bool
  resolutionX : ℤ
  resolutionY : ℤ
  filepath : Option ℕ
deriving DecidableEq

/-- Embeds setup_render_settings: computes the cell resolution from the
aspect ratio, snapshots the settings it will overwrite, and applies the new
ones.  Returns (snapshot, updated scene, res_x, res_y).  none models the
Python ZeroDivisionError: height / width with width = 0, or
BASE_RESOLUTION / ratio with ratio = 0.  The snapshot here is the whole
prior record; the source dict holds exactly the seven fields the code later
reads from it, so the behaviour is identical. -/
def setup_render_settings (B : ℕ) (scene : RenderScene) (w h : ℚ) :
    Option (RenderScene × RenderScene × ℤ × ℤ) :=
  if w = 0 then none
  else
    let aspect := h / w
    let raw : Option (ℤ × ℤ) :=
      if aspect > 1 then some ((B : ℤ), pyInt ((B : ℚ) * aspect))
      else if aspect = 0 then none
      else some (pyInt ((B : ℚ) / aspect), (B : ℤ))
    match raw with
    | none => none
    | some (rx0, ry0) =>
        let rx := evenize rx0
        let ry := evenize ry0
        some (scene,
          { scene with
            engine := "BLENDER_WORKBENCH"
            shadingLight := "FLAT"
            shadingColorType := "TEXTURE"
            showShadows := false
            filmTransparent := true
            resolutionX := rx
            resolutionY := ry },
          rx, ry)

/-- Python slice assignment a[s : e] = r on lists, for s ≤ e: clamp the
slice bounds to the list length, drop that segment and splice r in. -/
def pySetSlice (a : List ℚ) (s e : ℕ) (r : List ℚ) : List ℚ :=
  let s2 := min s a.length
  let e2 := min (max e s2) a.length
  a.take s2 ++ r ++ a.drop e2

/-- The row-copy loop of generate_texture_atlas for one tile: for each y in
range(res_y), slice the source row and splice it into the flat atlas array
at ((base_y + y) * atlas_width + base_x) * 4. -/
def copyTile (resX resY atlasW baseX baseY : ℕ) (src atlas : List ℚ) : List ℚ :=
  (List.range resY).foldl
    (fun acc y =>
      let rowData := (src.drop (y * resX * 4)).take (resX * 4)
      let targetStart := ((baseY + y) * atlasW + baseX) * 4
      pySetSlice acc targetStart (targetStart + rowData.length) rowData)
    atlas

/-- The per-tile loop of generate_texture_atlas over enumerate(image_paths).
A none entry models a source image whose load raised: the try/except prints
the failure for that index and continues with the next tile. -/
def packTiles (resX resY atlasW cols : ℕ) : List (Option (List ℚ)) → ℕ → List ℚ → List ℚ
  | [], _, atlas => atlas
  | none :: rest, idx, atlas => packTiles resX resY atlasW cols rest (idx + 1) atlas
  | some src :: rest, idx, atlas =>
      packTiles resX resY atlasW cols rest (idx + 1)
        (copyTile resX resY atlasW (idx % cols * resX) (idx / cols * resY) src atlas)

/-- The exact value of math.ceil(math.sqrt(count)) over the naturals. -/
def ceilSqrt (n : ℕ) : ℕ :=
  if Nat.sqrt n * Nat.sqrt n = n then Nat.sqrt n else Nat.sqrt n + 1

/-- Result of generate_texture_atlas: the flat RGBA pixel list of the atlas
image together with its dimensions and the grid, as returned to the caller. -/
structure AtlasResult where
  pixels : List ℚ
  width : ℕ
  height : ℕ
  cols : ℕ
  rows : ℕ
deriving DecidableEq

/-- Embeds generate_texture_atlas: grid from count, blank fully transparent
atlas buffer, then the tile loop.  The rows formula is the exact value of
math.ceil(count / cols); the cols = 0 guard covers count = 0, where the
Python float division count / cols would raise. -/
def generate_texture_atlas (srcs : List (Option (List ℚ))) (resX resY count : ℕ) :
    AtlasResult :=
  let cols := ceilSqrt count
  let rows := if cols = 0 then 0 else (count + cols - 1) / cols
  let atlasW := resX * cols
  let atlasH := resY * rows
  { pixels := packTiles resX resY atlasW cols srcs 0 (List.replicate (atlasW * atlasH * 4) 0),
    width := atlasW, height := atlasH, cols := cols, rows := rows }

/-- The UV block of one loop iteration of create_intersecting_quads, pushed
in the order BL, BR, TR, TL. -/
def quadUVs (cols rows i : ℕ) : List (ℚ × ℚ) :=
  let colIdx := i % cols
  let rowIdx := i / cols
  let uMin : ℚ := (colIdx : ℚ) / (cols : ℚ)
  let uMax : ℚ := ((colIdx + 1 : ℕ) : ℚ) / (cols : ℚ)
  let vMin : ℚ := (rowIdx : ℚ) / (rows : ℚ)
  let vMax : ℚ := ((rowIdx + 1 : ℕ) : ℚ) / (rows : ℚ)
  [(uMin, vMin), (uMax, vMin), (uMax, vMax), (uMin, vMax)]

/-- The uvs list built by the loop of create_intersecting_quads (uvs.extend
per view).  The source iterates i over range(HORIZONTAL_ANGLES); the view
count is a parameter n here, instantiated with that constant. -/
def create_intersecting_quads_uvs (n cols rows : ℕ) : List (ℚ × ℚ) :=
  (List.range n).foldl (fun acc i => acc ++ quadUVs cols rows i) []

/-- The mutable state generate_impostor toggles: the scene settings, the
hide_render flag of every object other than the target, and the temp render
files currently on disk (identified by their view index). -/
structure World where
  scene : RenderScene
  hideRender : List Bool
  diskFiles : List ℕ
deriving DecidableEq

/-- The two exceptions that can escape generate_impostor in this model. -/
inductive RunError
  | zeroDiv
  | renderFail (view : ℕ)
deriving DecidableEq

/-- One successful loop iteration: scene.render.filepath is set to the temp
path of view i, the render writes that file to disk, and the path is kept in
temp_files.  Camera creation and removal cancel out and are not modelled. -/
def render_view (i : ℕ) (w : World) : World :=
  { w with scene := { w.scene with filepath := some i },
           diskFiles := w.diskFiles.insert i }

/-- The render loop: on the first view whose render raises, the exception
propagates at once (the filepath had already been set for that view); there
is no try/finally, so no cleanup runs on that path. -/
def capture_loop (renderOk : ℕ → Bool) : List ℕ → World → World × Option ℕ
  | [], w => (w, none)
  | i :: rest, w =>
      if renderOk i then capture_loop renderOk rest (render_view i w)
      else ({ w with scene := { w.scene with filepath := some i } }, some i)

/-- Embeds generate_impostor from the settings setup onward: setup (which
may raise ZeroDivisionError before anything is toggled), hide every other
object, render loop, then on the success path only: atlas and quad creation
(they only add an image, an object and a material, none of which is part of
this state), restoration of engine, resolution and film_transparent, the
visibility flags, and removal of the temp files.  The shading light, color
type and shadow settings are never written back, and nothing is restored
when the loop fails. -/
def generate_impostor (B : ℕ) (renderOk : ℕ → Bool) (n : ℕ) (wdt hgt : ℚ) (w0 : World) :
    World × Option RunError :=
  match setup_render_settings B w0.scene wdt hgt with
  | none => (w0, some RunError.zeroDiv)
  | some (old, s1, _, _) =>
      let w1 : World := { w0 with scene := s1, hideRender := w0.hideRender.map fun _ => true }
      match capture_loop renderOk (List.range n) w1 with
      | (w2, some i) => (w2, some (RunError.renderFail i))
      | (w2, none) =>
          ({ scene := { w2.scene with
                        engine := old.engine
                        resolutionX := old.resolutionX
                        resolutionY := old.resolutionY
                        filmTransparent := old.filmTransparent }
             hideRender := w0.hideRender
             diskFiles := w2.diskFiles.filter fun f => decide (n ≤ f) }, none)

/-- Modelled from the words of claim C6 only, not from the source: the least
even integer greater than or equal to q, i.e. q rounded up to the next even
integer. -/
def specCeilEven (q : ℚ) : ℤ := 2 * ⌈q / 2⌉

/-- A concrete scene used by the closed counterexample and evaluation
theorems below. -/
def sampleScene : RenderScene :=
  { engine := "CYCLES", shadingLight := "STUDIO", shadingColorType := "MATERIAL",
    showShadows := true, filmTransparent := false, resolutionX := 1920,
    resolutionY := 1080, filepath := none }

/-- A concrete world around sampleScene with two non-target objects. -/
def sampleWorld : World :=
  { scene := sampleScene, hideRender := [false, true], diskFiles := [] }

/-- The scene produced from sampleScene by setup_render_settings with cell
resolution 512 x 512. -/
def modScene : RenderScene :=
  { engine := "BLENDER_WORKBENCH", shadingLight := "FLAT", shadingColorType := "TEXTURE",
    showShadows := false, filmTransparent := true, resolutionX := 512, resolutionY := 512,
    filepath := none }

theorem evenize_spec (n : ℤ) : evenize n % 2 = 0 ∧ n ≤ evenize n ∧ evenize n ≤ n + 1 := by
  unfold evenize; split <;> omega

theorem pyInt_eq_floor (q : ℚ) (h : 0 ≤ q) : pyInt q = ⌊q⌋ := if_pos h

theorem setup_sample :
    setup_render_settings 512 sampleScene 2 2 = some (sampleScene, modScene, 512, 512) := by
  rw [setup_render_settings]
  norm_num [pyInt, evenize, modScene, sampleScene]

theorem setup_render_settings_fields (B : ℕ) (s old s2 : RenderScene) (w h : ℚ) (rx ry : ℤ)
    (hs : setup_render_settings B s w h = some (old, s2, rx, ry)) :
    old = s ∧ s2.engine = "BLENDER_WORKBENCH" ∧ s2.shadingLight = "FLAT" ∧
    s2.shadingColorType = "TEXTURE" ∧ s2.showShadows = false ∧
    s2.filmTransparent = true ∧ s2.resolutionX = rx ∧ s2.resolutionY = ry := by
  simp only [setup_render_settings] at hs
  split at hs
  · cases hs
  · split at hs
    · cases hs
    · simp only [Option.some.injEq, Prod.mk.injEq] at hs
      obtain ⟨h1, h2, h3, h4⟩ := hs
      subst h1 h3 h4
      rw [← h2]
      exact ⟨rfl, rfl, rfl, rfl, rfl, rfl, rfl, rfl⟩

/-- Folding the successful render iterations over a list of view indices. -/
def renderFold (l : List ℕ) (w : World) : World := l.foldl (fun a i => render_view i a) w

theorem renderFold_cons (i : ℕ) (l : List ℕ) (w : World) :
    renderFold (i :: l) w = renderFold l (render_view i w) := rfl

theorem renderFold_preserves (l : List ℕ) (w : World) :
    (renderFold l w).hideRender = w.hideRender ∧
    (renderFold l w).scene.engine = w.scene.engine ∧
    (renderFold l w).scene.shadingLight = w.scene.shadingLight ∧
    (renderFold l w).scene.shadingColorType = w.scene.shadingColorType ∧
    (renderFold l w).scene.showShadows = w.scene.showShadows ∧
    (renderFold l w).scene.filmTransparent = w.scene.filmTransparent ∧
    (renderFold l w).scene.resolutionX = w.scene.resolutionX ∧
    (renderFold l w).scene.resolutionY = w.scene.resolutionY := by
  induction l generalizing w with
  | nil => exact ⟨rfl, rfl, rfl, rfl, rfl, rfl, rfl, rfl⟩
  | cons i t ih => exact ih (render_view i w)

theorem renderFold_files (l : List ℕ) (w : World) (j : ℕ)
    (hj : j ∈ l ∨ j ∈ w.diskFiles) : j ∈ (renderFold l w).diskFiles := by
  induction l generalizing w with
  | nil =>
      rcases hj with hl | hf
      · cases hl
      · exact hf
  | cons i t ih =>
      rw [renderFold_cons]
      apply ih
      rcases hj with hl | hf
      · rcases List.mem_cons.mp hl with rfl | ht
        · right
          simp [render_view, List.mem_insert_iff]
        · left
          exact ht
      · right
        simp [render_view, List.mem_insert_iff, hf]

theorem capture_loop_ok (renderOk : ℕ → Bool) (l : List ℕ) (w : World)
    (h : ∀ i ∈ l, renderOk i = true) :
    capture_loop renderOk l w = (renderFold l w, none) := by
  induction l generalizing w with
  | nil => rfl
  | cons i t ih =>
      rw [capture_loop, if_pos (h i (List.mem_cons_self i t)), renderFold_cons]
      exact ih _ fun j hj => h j (List.mem_cons_of_mem i hj)

theorem capture_loop_append (renderOk : ℕ → Bool) (l1 l2 : List ℕ) (w : World)
    (h : ∀ i ∈ l1, renderOk i = true) :
    capture_loop renderOk (l1 ++ l2) w = capture_loop renderOk l2 (renderFold l1 w) := by
  induction l1 generalizing w with
  | nil => rfl
  | cons i t ih =>
      rw [List.cons_append, capture_loop, if_pos (h i (List.mem_cons_self i t)), renderFold_cons]
      exact ih _ fun j hj => h j (List.mem_cons_of_mem i hj)

theorem capture_range_firstfail (renderOk : ℕ → Bool) (k n : ℕ) (w : World) (hk : k < n)
    (hfail : renderOk k = false) (hok : ∀ j, j < k → renderOk j = true) :
    capture_loop renderOk (List.range n) w =
      ({ renderFold (List.range k) w with
         scene := { (renderFold (List.range k) w).scene with filepath := some k } }, some k) := by
  have hsplit : List.range n =
      List.range k ++ k :: ((List.range (n - k - 1)).map fun j => k + (j + 1)) := by
    have h1 : n = k + (n - k) := by omega
    have h2 : n - k = (n - k - 1) + 1 := by omega
    calc List.range n = List.range (k + (n - k)) := by rw [← h1]
    _ = List.range k ++ (List.range (n - k)).map (k + ·) := List.range_add k (n - k)
    _ = List.range k ++ k :: ((List.range (n - k - 1)).map fun j => k + (j + 1)) := by
        rw [h2, List.range_succ_eq_map]
        simp [List.map_map, Function.comp_def]
  rw [hsplit, capture_loop_append renderOk _ _ w fun i hi => hok i (List.mem_range.mp hi)]
  rw [capture_loop, hfail]
  rfl

/-- Claim C10 (confirmed): for a degenerate bounding cylinder, radius 0
(hence width w = 2 * radius = 0) or height 0, the resolution computation of
setup_render_settings performs an unguarded division, height / width or
BASE_RESOLUTION / ratio with ratio = 0, which raises ZeroDivisionError, so
the pipeline aborts with that error instead of producing a resolution. -/
theorem degenerate_cylinder_resolution_divzero (B : ℕ) (s : RenderScene) (w h : ℚ)
    (hdeg : w = 0 ∨ h = 0) :
    setup_render_settings B s w h = none ∧
    ∀ (renderOk : ℕ → Bool) (n : ℕ) (w0 : World), w0.scene = s →
      generate_impostor B renderOk n w h w0 = (w0, some RunError.zeroDiv) := by
  have hnone : setup_render_settings B s w h = none := by
    rcases hdeg with hw | hh
    · simp [setup_render_settings, hw]
    · simp only [setup_render_settings, hh, zero_div]
      by_cases hw : w = 0
      · rw [if_pos hw]
      · rw [if_neg hw]
        norm_num
  refine ⟨hnone, fun renderOk n w0 hw0 => ?_⟩
  rw [generate_impostor, hw0, hnone]

/-- Witness for degenerate_cylinder_resolution_divzero at width 0, height 5. -/
theorem degenerate_cylinder_resolution_divzero_check :
    ((0 : ℚ) = 0 ∨ (5 : ℚ) = 0) ∧
    setup_render_settings 512 sampleScene 0 5 = none :=
  ⟨Or.inl rfl, (degenerate_cylinder_resolution_divzero 512 sampleScene 0 5 (Or.inl rfl)).1⟩

/-- Claim C6 counterexample: at width 1024 and height 2045 (ratio 2045/1024,
B = 512, so B * ratio = 1022.5), the code truncates first and keeps 1022,
while the claimed value, B * ratio rounded up to the next even integer, is
1024; so the claim as stated fails, and the adjustment is not an upward one. -/
theorem resolution_not_spec_rounded_up :
    (setup_render_settings 512 sampleScene 1024 2045).map (fun p => p.2.2.2) = some 1022 ∧
    specCeilEven ((512 : ℚ) * (2045 / 1024)) = 1024 ∧ (1022 : ℤ) ≠ 1024 := by
  refine ⟨?_, ?_, by decide⟩
  · rw [setup_render_settings]
    norm_num [pyInt, evenize]
  · rw [specCeilEven, show ((512 : ℚ) * (2045 / 1024)) / 2 = 2045 / 4 by norm_num]
    rw [show ⌈(2045 / 4 : ℚ)⌉ = (512 : ℤ) from by rw [Int.ceil_eq_iff]; norm_num]
    norm_num

theorem evenize_eq_specCeilEven (n : ℤ) : evenize n = specCeilEven (n : ℚ) := by
  unfold evenize specCeilEven
  rcases Int.even_or_odd n with ⟨k, hk⟩ | ⟨k, hk⟩
  · subst hk
    rw [if_neg (by omega)]
    rw [show (((k + k : ℤ) : ℚ)) / 2 = ((k : ℤ) : ℚ) by push_cast; ring]
    rw [Int.ceil_intCast]
    ring
  · subst hk
    rw [if_pos (by omega)]
    rw [show (((2 * k + 1 : ℤ) : ℚ)) / 2 = (1 / 2 : ℚ) + ((k : ℤ) : ℚ) by push_cast; ring]
    rw [Int.ceil_add_int]
    rw [show ⌈(1 / 2 : ℚ)⌉ = 1 from by rw [Int.ceil_eq_iff]; norm_num]
    ring

/-- Claim C6 amended: for width w > 0 and height h > 0 with ratio = h / w,
if ratio > 1 then res_x = B and res_y = int(B * ratio) (truncation), else
res_x = int(B / ratio) and res_y = B; each value is then raised by 1 if odd.
Both results are even, each lies between the truncated quotient and the
truncated quotient plus 1, and when B * ratio (resp. B / ratio) is an
integer the result is exactly that value rounded up to the next even
integer, an adjustment that adds at most 1, as the claim says. -/
theorem resolution_truncate_then_evenize (B : ℕ) (scene : RenderScene) (w h : ℚ)
    (hw : 0 < w) (hh : 0 < h) :
    ∃ old s2 rx ry, setup_render_settings B scene w h = some (old, s2, rx, ry) ∧
      rx % 2 = 0 ∧ ry % 2 = 0 ∧ s2.resolutionX = rx ∧ s2.resolutionY = ry ∧
      (h / w > 1 →
        rx = evenize (B : ℤ) ∧ ry = evenize ⌊(B : ℚ) * (h / w)⌋ ∧
        ⌊(B : ℚ) * (h / w)⌋ ≤ ry ∧ ry ≤ ⌊(B : ℚ) * (h / w)⌋ + 1 ∧
        ((⌊(B : ℚ) * (h / w)⌋ : ℚ) = (B : ℚ) * (h / w) →
          ry = specCeilEven ((B : ℚ) * (h / w)))) ∧
      (¬ h / w > 1 →
        ry = evenize (B : ℤ) ∧ rx = evenize ⌊(B : ℚ) / (h / w)⌋ ∧
        ⌊(B : ℚ) / (h / w)⌋ ≤ rx ∧ rx ≤ ⌊(B : ℚ) / (h / w)⌋ + 1 ∧
        ((⌊(B : ℚ) / (h / w)⌋ : ℚ) = (B : ℚ) / (h / w) →
          rx = specCeilEven ((B : ℚ) / (h / w)))) := by
  have haspect : 0 < h / w := div_pos hh hw
  simp only [setup_render_settings, if_neg hw.ne']
  by_cases hgt : h / w > 1
  · have hnn : (0 : ℚ) ≤ (B : ℚ) * (h / w) := by positivity
    rw [if_pos hgt]
    refine ⟨scene, _, evenize (B : ℤ), evenize (pyInt ((B : ℚ) * (h / w))), rfl,
      (evenize_spec _).1, (evenize_spec _).1, rfl, rfl, fun _ => ?_, fun hc => absurd hgt hc⟩
    rw [pyInt_eq_floor _ hnn]
    refine ⟨rfl, rfl, (evenize_spec _).2.1, (evenize_spec _).2.2, fun hq => ?_⟩
    rw [evenize_eq_specCeilEven, hq]
  · have hnn : (0 : ℚ) ≤ (B : ℚ) / (h / w) := by positivity
    rw [if_neg hgt, if_neg haspect.ne']
    refine ⟨scene, _, evenize (pyInt ((B : ℚ) / (h / w))), evenize (B : ℤ), rfl,
      (evenize_spec _).1, (evenize_spec _).1, rfl, rfl, fun hc => absurd hc hgt, fun _ => ?_⟩
    rw [pyInt_eq_floor _ hnn]
    refine ⟨rfl, rfl, (evenize_spec _).2.1, (evenize_spec _).2.2, fun hq => ?_⟩
    rw [evenize_eq_specCeilEven, hq]

/-- Witness for resolution_truncate_then_evenize at width 1, height 2. -/
theorem resolution_truncate_then_evenize_check :
    (0 : ℚ) < 1 ∧ (0 : ℚ) < 2 ∧
    ∃ old s2 rx ry, setup_render_settings 512 sampleScene 1 2 = some (old, s2, rx, ry) ∧
      rx % 2 = 0 ∧ ry % 2 = 0 :=
  ⟨by norm_num, by norm_num,
    match resolution_truncate_then_evenize 512 sampleScene 1 2 (by norm_num) (by norm_num) with
    | ⟨old, s2, rx, ry, h1, h2, h3, _⟩ => ⟨old, s2, rx, ry, h1, h2, h3⟩⟩

/-- Claim C5: on a successfully completed run, the code restores the render
engine, film transparency, resolution and the per-object hide_render flags,
but never writes back the snapshotted shading light mode, shading color type
and shadow flag: they remain FLAT / TEXTURE / false although the run started
from STUDIO / MATERIAL / true, contradicting the claim that every toggled
setting is restored.  The dict old_settings in the source does capture the
three values, so the restore step omitting them is a slip of the code. -/
theorem successful_run_leaves_shading_modified :
    generate_impostor 512 (fun _ => true) 2 2 2 sampleWorld =
      ({ scene := { sampleScene with
                    shadingLight := "FLAT"
                    shadingColorType := "TEXTURE"
                    showShadows := false
                    filepath := some 1 },
         hideRender := [false, true], diskFiles := [] }, none) ∧
    sampleScene.shadingLight = "STUDIO" ∧ sampleScene.shadingColorType = "MATERIAL" ∧
    sampleScene.showShadows = true := by
  refine ⟨?_, rfl, rfl, rfl⟩
  rw [generate_impostor, show sampleWorld.scene = sampleScene from rfl, setup_sample]
  decide

/-- Claim C4 counterexample: with the renderer failing on view 1 of 2, the
run ends with the error propagating while the visibility flags are still all
hidden ([true, true] against the snapshot [false, true]), the render
settings are still the toggled ones (engine BLENDER_WORKBENCH against the
prior CYCLES), and the temp file of view 0 is still on disk; nothing was
restored or removed before the error surfaced. -/
theorem render_failure_leaves_state_unrestored :
    generate_impostor 512 (fun i => decide (i = 0)) 2 2 2 sampleWorld =
      ({ scene := { modScene with filepath := some 1 }, hideRender := [true, true],
         diskFiles := [0] }, some (RunError.renderFail 1)) ∧
    sampleWorld.hideRender = [false, true] ∧ sampleScene.engine = "CYCLES" ∧
    modScene.engine = "BLENDER_WORKBENCH" := by
  refine ⟨?_, rfl, rfl, rfl⟩
  rw [generate_impostor, show sampleWorld.scene = sampleScene from rfl, setup_sample]
  decide

/-- Claim C4 amended: generate_impostor has no try/finally, so cleanup runs
only on the success path.  If the renderer raises on view k (all earlier
views having succeeded), the error propagates immediately: every hide_render
flag is still true, the toggled render settings are still in effect, and the
k temp files already captured are still on disk. -/
theorem cleanup_only_on_success (B n k : ℕ) (renderOk : ℕ → Bool) (wdt hgt : ℚ)
    (w0 : World) (old s1 : RenderScene) (rx ry : ℤ)
    (hsetup : setup_render_settings B w0.scene wdt hgt = some (old, s1, rx, ry))
    (hk : k < n) (hfail : renderOk k = false) (hok : ∀ j, j < k → renderOk j = true) :
    (generate_impostor B renderOk n wdt hgt w0).2 = some (RunError.renderFail k) ∧
    (generate_impostor B renderOk n wdt hgt w0).1.hideRender =
      w0.hideRender.map (fun _ => true) ∧
    (generate_impostor B renderOk n wdt hgt w0).1.scene.engine = "BLENDER_WORKBENCH" ∧
    (generate_impostor B renderOk n wdt hgt w0).1.scene.shadingLight = "FLAT" ∧
    (generate_impostor B renderOk n wdt hgt w0).1.scene.filmTransparent = true ∧
    ∀ j, j < k → j ∈ (generate_impostor B renderOk n wdt hgt w0).1.diskFiles := by
  obtain ⟨-, heng, hlight, -, -, hfilm, -, -⟩ :=
    setup_render_settings_fields B w0.scene old s1 wdt hgt rx ry hsetup
  simp only [generate_impostor, hsetup,
    capture_range_firstfail renderOk k n
      { w0 with scene := s1, hideRender := w0.hideRender.map fun _ => true } hk hfail hok]
  obtain ⟨hH, hE, hL, _, _, hF, _, _⟩ :=
    renderFold_preserves (List.range k)
      { w0 with scene := s1, hideRender := w0.hideRender.map fun _ => true }
  exact ⟨trivial, hH, hE.trans heng, hL.trans hlight, hF.trans hfilm,
    fun j hj => renderFold_files (List.range k) _ j (Or.inl (List.mem_range.mpr hj))⟩

/-- Witness for cleanup_only_on_success: renderer fails on view 1 of 2. -/
theorem cleanup_only_on_success_check :
    (1 < 2 ∧ (fun i => decide (i = 0)) 1 = false) ∧
    (generate_impostor 512 (fun i => decide (i = 0)) 2 2 2 sampleWorld).2 =
      some (RunError.renderFail 1) ∧
    (generate_impostor 512 (fun i => decide (i = 0)) 2 2 2 sampleWorld).1.hideRender =
      sampleWorld.hideRender.map (fun _ => true) :=
  ⟨⟨by decide, by decide⟩,
    (cleanup_only_on_success 512 2 1 (fun i => decide (i = 0)) 2 2 sampleWorld
      sampleScene modScene 512 512 setup_sample (by decide) (by decide)
      (fun j hj => by
        have hj0 : j = 0 := by omega
        subst hj0
        decide)).1,
    (cleanup_only_on_success 512 2 1 (fun i => decide (i = 0)) 2 2 sampleWorld
      sampleScene modScene 512 512 setup_sample (by decide) (by decide)
      (fun j hj => by
        have hj0 : j = 0 := by omega
        subst hj0
        decide)).2.1⟩

/-- Claim C9 counterexample: a configured target name whose lookup fails
leaves target = None, and the obj.type access raises AttributeError; the run
does not continue with the default cylinder.  With no name configured and an
empty selection the run returns early, again without the default cylinder. -/
theorem missing_target_crashes_not_default :
    resolve_and_bounds (TargetConfig.byName none) = BoundsOutcome.attributeError ∧
    resolve_and_bounds (TargetConfig.byName none) ≠
      BoundsOutcome.proceeds (1, 2, -1, 0, 1) ∧
    resolve_and_bounds (TargetConfig.selected []) = BoundsOutcome.noTargetReturn := by
  refine ⟨rfl, ?_, rfl⟩
  intro hcontra
  cases hcontra

/-- Claim C9 amended: only a target that exists but is not a mesh gets the
default cylinder of radius 1 (radius squared 1 in this model) and height 2,
with min_z -1, mid_z 0, max_z 1, after which the pipeline proceeds; a
missing target is not handled that way: a configured name that resolves to
nothing raises AttributeError, and an empty selection stops the run before
the bounds stage. -/
theorem nonmesh_default_but_missing_unhandled :
    (∀ obj : BObject, obj.isMesh = false →
      resolve_and_bounds (TargetConfig.byName (some obj)) =
        BoundsOutcome.proceeds (1, 2, -1, 0, 1) ∧
      ∀ rest, resolve_and_bounds (TargetConfig.selected (obj :: rest)) =
        BoundsOutcome.proceeds (1, 2, -1, 0, 1)) ∧
    resolve_and_bounds (TargetConfig.byName none) = BoundsOutcome.attributeError ∧
    resolve_and_bounds (TargetConfig.selected []) = BoundsOutcome.noTargetReturn := by
  refine ⟨fun obj hobj => ?_, rfl, rfl⟩
  constructor
  · simp [resolve_and_bounds, get_tight_bounds_and_aspect, hobj]
  · intro rest
    simp [resolve_and_bounds, get_tight_bounds_and_aspect, hobj]

/-- Witness for nonmesh_default_but_missing_unhandled on a concrete
non-mesh object. -/
theorem nonmesh_default_but_missing_unhandled_check :
    (BObject.mk false [] 0 0).isMesh = false ∧
    resolve_and_bounds (TargetConfig.byName (some (BObject.mk false [] 0 0))) =
      BoundsOutcome.proceeds (1, 2, -1, 0, 1) :=
  ⟨rfl, (nonmesh_default_but_missing_unhandled.1 (BObject.mk false [] 0 0) rfl).1⟩

theorem ceilSqrt_pos (n : ℕ) (hn : 1 ≤ n) : 0 < ceilSqrt n := by
  unfold ceilSqrt
  split
  · exact Nat.sqrt_pos.mpr hn
  · omega

theorem ceilSqrt_eq_ceil_sqrt (n : ℕ) : ceilSqrt n = ⌈Real.sqrt n⌉₊ := by
  unfold ceilSqrt
  by_cases h : Nat.sqrt n * Nat.sqrt n = n
  · rw [if_pos h]
    have hs : Real.sqrt n = (Nat.sqrt n : ℝ) := by
      rw [show ((n : ℕ) : ℝ) = (Nat.sqrt n : ℝ) * (Nat.sqrt n : ℝ) by
        rw [← Nat.cast_mul, h]]
      exact Real.sqrt_mul_self (by positivity)
    rw [hs, Nat.ceil_natCast]
  · rw [if_neg h]
    have hlt : Nat.sqrt n * Nat.sqrt n < n := lt_of_le_of_ne (Nat.sqrt_le n) h
    symm
    rw [Nat.ceil_eq_iff (by omega)]
    constructor
    · have h1 : ((Nat.sqrt n : ℝ)) ^ 2 < (n : ℝ) := by
        rw [sq, ← Nat.cast_mul]
        exact_mod_cast hlt
      have h2 : ((Nat.sqrt n : ℝ)) < Real.sqrt n :=
        (Real.lt_sqrt (by positivity)).mpr h1
      simpa using h2
    · have h3 : (n : ℝ) ≤ ((Nat.sqrt n + 1 : ℕ) : ℝ) ^ 2 := by
        have h4 := Nat.lt_succ_sqrt' n
        rw [← Nat.cast_pow]
        exact_mod_cast h4.le
      calc Real.sqrt n ≤ Real.sqrt (((Nat.sqrt n + 1 : ℕ) : ℝ) ^ 2) := Real.sqrt_le_sqrt h3
      _ = ((Nat.sqrt n + 1 : ℕ) : ℝ) := Real.sqrt_sq (by positivity)

theorem ceil_div_nat (a b : ℕ) (hb : 0 < b) :
    (a + b - 1) / b = ⌈(a : ℚ) / (b : ℚ)⌉₊ := by
  rcases Nat.eq_zero_or_pos a with ha | ha
  · subst ha
    rw [Nat.div_eq_of_lt (by omega)]
    rw [Nat.cast_zero, zero_div, Nat.ceil_zero]
  · have hdm := Nat.div_add_mod (a + b - 1) b
    have hmod := Nat.mod_lt (a + b - 1) hb
    have hq1 : 1 ≤ (a + b - 1) / b := (Nat.one_le_div_iff hb).mpr (by omega)
    symm
    rw [Nat.ceil_eq_iff (by omega)]
    have hbq : (0 : ℚ) < (b : ℚ) := by exact_mod_cast hb
    constructor
    · rw [lt_div_iff₀ hbq]
      have hnat : ((a + b - 1) / b - 1) * b < a := by
        have hsub : ((a + b - 1) / b - 1) * b = b * ((a + b - 1) / b) - b := by
          rw [Nat.sub_mul, one_mul, Nat.mul_comm]
        omega
      exact_mod_cast hnat
    · rw [div_le_iff₀ hbq]
      have hnat : a ≤ ((a + b - 1) / b) * b := by
        have hcomm : ((a + b - 1) / b) * b = b * ((a + b - 1) / b) := Nat.mul_comm _ _
        omega
      exact_mod_cast hnat

theorem grid_covers (count : ℕ) (hc : 1 ≤ count) :
    count ≤ ceilSqrt count * ((count + ceilSqrt count - 1) / ceilSqrt count) := by
  have hpos := ceilSqrt_pos count hc
  have hdm := Nat.div_add_mod (count + ceilSqrt count - 1) (ceilSqrt count)
  have hmod := Nat.mod_lt (count + ceilSqrt count - 1) hpos
  omega

/-- Claim C7 (confirmed): for every view count N ≥ 1 the atlas grid has
cols = ceil(sqrt N), rows = ceil(N / cols), cols * rows ≥ N, and the atlas
buffer measures res_x * cols by res_y * rows. -/
theorem atlas_grid_layout (srcs : List (Option (List ℚ))) (resX resY N : ℕ) (hN : 1 ≤ N) :
    (generate_texture_atlas srcs resX resY N).cols = ⌈Real.sqrt N⌉₊ ∧
    (generate_texture_atlas srcs resX resY N).rows =
      ⌈(N : ℚ) / ((generate_texture_atlas srcs resX resY N).cols : ℚ)⌉₊ ∧
    N ≤ (generate_texture_atlas srcs resX resY N).cols *
        (generate_texture_atlas srcs resX resY N).rows ∧
    (generate_texture_atlas srcs resX resY N).width =
      resX * (generate_texture_atlas srcs resX resY N).cols ∧
    (generate_texture_atlas srcs resX resY N).height =
      resY * (generate_texture_atlas srcs resX resY N).rows := by
  have hpos := ceilSqrt_pos N hN
  have hcols : (generate_texture_atlas srcs resX resY N).cols = ceilSqrt N := rfl
  have hrows : (generate_texture_atlas srcs resX resY N).rows =
      (N + ceilSqrt N - 1) / ceilSqrt N := by
    show (if ceilSqrt N = 0 then 0 else (N + ceilSqrt N - 1) / ceilSqrt N) = _
    rw [if_neg hpos.ne']
  refine ⟨hcols.trans (ceilSqrt_eq_ceil_sqrt N), ?_, ?_, rfl, rfl⟩
  · rw [hcols, hrows, ceil_div_nat N (ceilSqrt N) hpos]
  · rw [hcols, hrows]
    exact grid_covers N hN

/-- Witness for atlas_grid_layout at N = 5 views, cell 2 x 3. -/
theorem atlas_grid_layout_check :
    1 ≤ 5 ∧ (generate_texture_atlas [] 2 3 5).cols = ⌈Real.sqrt 5⌉₊ ∧
    5 ≤ (generate_texture_atlas [] 2 3 5).cols * (generate_texture_atlas [] 2 3 5).rows :=
  ⟨by decide, (atlas_grid_layout [] 2 3 5 (by decide)).1,
    (atlas_grid_layout [] 2 3 5 (by decide)).2.2.1⟩

theorem ite_gt_eq_max (a b : ℚ) : (if b > a then b else a) = max a b := by
  rcases le_or_lt b a with h | h
  · rw [if_neg (not_lt.mpr h), max_eq_left h]
  · rw [if_pos h, max_eq_right h.le]

theorem maxRadiusSq_eq_foldmax (corners : List Corner) (ox oy : ℚ) :
    maxRadiusSq corners ox oy =
      corners.foldl (fun acc c => max acc (distSq c ox oy)) 0 := by
  unfold maxRadiusSq
  congr 1
  funext acc c
  exact ite_gt_eq_max acc (distSq c ox oy)

theorem sqrt_foldmax (f : Corner → ℚ) (l : List Corner) :
    ∀ a : ℚ,
      Real.sqrt ((l.foldl (fun acc c => max acc (f c)) a : ℚ) : ℝ) =
        l.foldl (fun acc c => max acc (Real.sqrt ((f c : ℚ) : ℝ)))
          (Real.sqrt ((a : ℚ) : ℝ)) := by
  induction l with
  | nil => intro a; rfl
  | cons c t ih =>
      intro a
      rw [List.foldl_cons, List.foldl_cons, ih (max a (f c))]
      congr 1
      rw [Rat.cast_max]
      have hmono : Monotone Real.sqrt := fun x y h => Real.sqrt_le_sqrt h
      exact hmono.map_max

theorem foldmax_le_iff (f : Corner → ℚ) (l : List Corner) (b : ℚ) :
    ∀ a : ℚ, (l.foldl (fun acc c => max acc (f c)) a ≤ b ↔
      a ≤ b ∧ ∀ c ∈ l, f c ≤ b) := by
  induction l with
  | nil =>
      intro a
      simp
  | cons c t ih =>
      intro a
      rw [List.foldl_cons, ih (max a (f c)), max_le_iff]
      constructor
      · rintro ⟨⟨h1, h2⟩, h3⟩
        exact ⟨h1, fun d hd => by
          rcases List.mem_cons.mp hd with rfl | hdt
          · exact h2
          · exact h3 d hdt⟩
      · rintro ⟨h1, h2⟩
        exact ⟨⟨h1, h2 c (List.mem_cons_self c t)⟩,
          fun d hd => h2 d (List.mem_cons_of_mem c hd)⟩

theorem distSq_nonpos_iff (c : Corner) (ox oy : ℚ) :
    distSq c ox oy ≤ 0 ↔ c.1 = ox ∧ c.2.1 = oy := by
  unfold distSq
  constructor
  · intro h
    have h1 : (c.1 - ox) ^ 2 = 0 :=
      le_antisymm (by nlinarith [sq_nonneg (c.2.1 - oy)]) (sq_nonneg _)
    have h2 : (c.2.1 - oy) ^ 2 = 0 :=
      le_antisymm (by nlinarith [sq_nonneg (c.1 - ox)]) (sq_nonneg _)
    exact ⟨sub_eq_zero.mp (sq_eq_zero_iff.mp h1), sub_eq_zero.mp (sq_eq_zero_iff.mp h2)⟩
  · rintro ⟨h1, h2⟩
    rw [h1, h2]
    simp

/-- Claim C8 (confirmed): the radius, sqrt of the maximal squared horizontal
corner distance from the origin, equals the maximum over the corners of the
individual distances; it is zero exactly when every corner sits horizontally
on the origin; and on a mesh object the bounds are (radius squared,
max_z - min_z, min_z, (min_z + max_z) / 2, max_z). -/
theorem bounding_cylinder_radius_spec (corners : List Corner) (ox oy : ℚ) :
    Real.sqrt ((maxRadiusSq corners ox oy : ℚ) : ℝ) =
      (corners.map fun c => Real.sqrt ((distSq c ox oy : ℚ) : ℝ)).foldl max 0 ∧
    (Real.sqrt ((maxRadiusSq corners ox oy : ℚ) : ℝ) = 0 ↔
      ∀ c ∈ corners, c.1 = ox ∧ c.2.1 = oy) ∧
    ∀ obj : BObject, obj.isMesh = true →
      get_tight_bounds_and_aspect obj =
        (maxRadiusSq obj.corners obj.locX obj.locY,
         maxZ obj.corners - minZ obj.corners, minZ obj.corners,
         (minZ obj.corners + maxZ obj.corners) / 2, maxZ obj.corners) := by
  refine ⟨?_, ?_, fun obj hobj => by simp [get_tight_bounds_and_aspect, hobj]⟩
  · rw [maxRadiusSq_eq_foldmax, sqrt_foldmax (fun c => distSq c ox oy) corners 0,
      List.foldl_map]
    norm_num
  · rw [Real.sqrt_eq_zero', maxRadiusSq_eq_foldmax]
    have hcast : ((corners.foldl (fun acc c => max acc (distSq c ox oy)) 0 : ℚ) : ℝ) ≤ 0 ↔
        corners.foldl (fun acc c => max acc (distSq c ox oy)) 0 ≤ 0 := by
      exact_mod_cast Iff.rfl
    rw [hcast, foldmax_le_iff (fun c => distSq c ox oy) corners 0 0]
    constructor
    · rintro ⟨-, h⟩ c hc
      exact (distSq_nonpos_iff c ox oy).mp (h c hc)
    · intro h
      exact ⟨le_refl 0, fun c hc => (distSq_nonpos_iff c ox oy).mpr (h c hc)⟩

/-- Witness for bounding_cylinder_radius_spec on a concrete mesh object. -/
theorem bounding_cylinder_radius_spec_check :
    (BObject.mk true [(3, 4, 5), (0, 0, -2)] 0 0).isMesh = true ∧
    get_tight_bounds_and_aspect (BObject.mk true [(3, 4, 5), (0, 0, -2)] 0 0) =
      (maxRadiusSq [(3, 4, 5), (0, 0, -2)] 0 0,
       maxZ [(3, 4, 5), (0, 0, -2)] - minZ [(3, 4, 5), (0, 0, -2)],
       minZ [(3, 4, 5), (0, 0, -2)],
       (minZ [(3, 4, 5), (0, 0, -2)] + maxZ [(3, 4, 5), (0, 0, -2)]) / 2,
       maxZ [(3, 4, 5), (0, 0, -2)]) :=
  ⟨rfl, (bounding_cylinder_radius_spec [(3, 4, 5), (0, 0, -2)] 0 0).2.2
    (BObject.mk true [(3, 4, 5), (0, 0, -2)] 0 0) rfl⟩

theorem quadUVs_length (cols rows i : ℕ) : (quadUVs cols rows i).length = 4 := rfl

theorem create_uvs_succ (m cols rows : ℕ) :
    create_intersecting_quads_uvs (m + 1) cols rows =
      create_intersecting_quads_uvs m cols rows ++ quadUVs cols rows m := by
  unfold create_intersecting_quads_uvs
  rw [List.range_succ, List.foldl_append]
  rfl

theorem create_uvs_length (n cols rows : ℕ) :
    (create_intersecting_quads_uvs n cols rows).length = 4 * n := by
  induction n with
  | zero => rfl
  | succ m ih =>
      rw [create_uvs_succ, List.length_append, ih, quadUVs_length]
      omega

theorem create_uvs_segment (cols rows : ℕ) :
    ∀ n i, i < n →
      ((create_intersecting_quads_uvs n cols rows).drop (4 * i)).take 4 =
        quadUVs cols rows i := by
  intro n
  induction n with
  | zero => intro i hi; cases hi
  | succ m ih =>
      intro i hi
      rw [create_uvs_succ]
      rcases Nat.lt_or_ge i m with him | him
      · rw [List.drop_append_of_le_length (by rw [create_uvs_length]; omega)]
        rw [List.take_append_of_le_length]
        · exact ih i him
        · rw [List.length_drop, create_uvs_length]
          omega
      · have hieq : i = m := by omega
        subst hieq
        have hlen : 4 * i = (create_intersecting_quads_uvs i cols rows).length :=
          (create_uvs_length i cols rows).symm
        rw [hlen, List.drop_left]
        conv_lhs => rw [← quadUVs_length cols rows i]
        rw [List.take_length]

theorem cell_cover_1d (m : ℕ) (hm : 0 < m) (u : ℚ) (h0 : 0 ≤ u) (h1 : u ≤ 1) :
    ∃ c, c < m ∧ (c : ℚ) / (m : ℚ) ≤ u ∧ u ≤ ((c + 1 : ℕ) : ℚ) / (m : ℚ) := by
  have hmq : (0 : ℚ) < (m : ℚ) := by exact_mod_cast hm
  refine ⟨min (m - 1) ⌊u * m⌋₊, by omega, ?_, ?_⟩
  · rw [div_le_iff₀ hmq]
    by_cases hcase : ⌊u * m⌋₊ ≤ m - 1
    · rw [show min (m - 1) ⌊u * (m : ℚ)⌋₊ = ⌊u * (m : ℚ)⌋₊ by omega]
      exact Nat.floor_le (by positivity)
    · rw [show min (m - 1) ⌊u * (m : ℚ)⌋₊ = m - 1 by omega]
      have hfl : (m : ℚ) ≤ u * m := by
        calc (m : ℚ) ≤ (⌊u * (m : ℚ)⌋₊ : ℚ) := by exact_mod_cast (by omega : m ≤ ⌊u * (m : ℚ)⌋₊)
        _ ≤ u * m := Nat.floor_le (by positivity)
      have hsub : ((m - 1 : ℕ) : ℚ) ≤ (m : ℚ) := by exact_mod_cast Nat.sub_le m 1
      linarith
  · rw [le_div_iff₀ hmq]
    by_cases hcase : ⌊u * m⌋₊ ≤ m - 1
    · rw [show min (m - 1) ⌊u * (m : ℚ)⌋₊ = ⌊u * (m : ℚ)⌋₊ by omega]
      have hlt := Nat.lt_floor_add_one (u * (m : ℚ))
      push_cast
      linarith
    · rw [show min (m - 1) ⌊u * (m : ℚ)⌋₊ = m - 1 by omega]
      rw [show ((m - 1 + 1 : ℕ) : ℚ) = (m : ℚ) by
        exact_mod_cast congrArg (Nat.cast : ℕ → ℚ) (by omega : m - 1 + 1 = m)]
      calc u * m ≤ 1 * m := mul_le_mul_of_nonneg_right h1 hmq.le
      _ = (m : ℚ) := one_mul _

theorem cell_disjoint_1d (m a b : ℕ) (hm : 0 < m) (hab : a < b) (u : ℚ)
    (hu1 : u < ((a + 1 : ℕ) : ℚ) / (m : ℚ)) (hu2 : ((b : ℕ) : ℚ) / (m : ℚ) < u) : False := by
  have hmq : (0 : ℚ) < (m : ℚ) := by exact_mod_cast hm
  rw [lt_div_iff₀ hmq] at hu1
  rw [div_lt_iff₀ hmq] at hu2
  have hcast : ((b : ℕ) : ℚ) < ((a + 1 : ℕ) : ℚ) := by linarith
  have : b < a + 1 := by exact_mod_cast hcast
  omega

/-- Claim C2 (confirmed): each view i gets the UV rectangle
u in [col/cols, (col+1)/cols], v in [row/rows, (row+1)/rows] with
col = i mod cols and row = i div cols, assigned in vertex order BL, BR, TR,
TL; and when n = cols * rows the rectangles cover the unit square with no
two overlapping in their interiors. -/
theorem quad_uv_assignment_and_tiling (n cols rows : ℕ) (hc : 0 < cols) (hr : 0 < rows) :
    (∀ i, i < n →
      ((create_intersecting_quads_uvs n cols rows).drop (4 * i)).take 4 =
        [(((i % cols : ℕ) : ℚ) / (cols : ℚ), ((i / cols : ℕ) : ℚ) / (rows : ℚ)),
         (((i % cols + 1 : ℕ) : ℚ) / (cols : ℚ), ((i / cols : ℕ) : ℚ) / (rows : ℚ)),
         (((i % cols + 1 : ℕ) : ℚ) / (cols : ℚ), ((i / cols + 1 : ℕ) : ℚ) / (rows : ℚ)),
         (((i % cols : ℕ) : ℚ) / (cols : ℚ), ((i / cols + 1 : ℕ) : ℚ) / (rows : ℚ))]) ∧
    (n = cols * rows →
      (∀ u v : ℚ, 0 ≤ u → u ≤ 1 → 0 ≤ v → v ≤ 1 →
        ∃ i, i < n ∧
          ((i % cols : ℕ) : ℚ) / (cols : ℚ) ≤ u ∧
          u ≤ ((i % cols + 1 : ℕ) : ℚ) / (cols : ℚ) ∧
          ((i / cols : ℕ) : ℚ) / (rows : ℚ) ≤ v ∧
          v ≤ ((i / cols + 1 : ℕ) : ℚ) / (rows : ℚ)) ∧
      (∀ i j, i < n → j < n → i ≠ j → ∀ u v : ℚ,
        ¬(((i % cols : ℕ) : ℚ) / (cols : ℚ) < u ∧
          u < ((i % cols + 1 : ℕ) : ℚ) / (cols : ℚ) ∧
          ((i / cols : ℕ) : ℚ) / (rows : ℚ) < v ∧
          v < ((i / cols + 1 : ℕ) : ℚ) / (rows : ℚ) ∧
          ((j % cols : ℕ) : ℚ) / (cols : ℚ) < u ∧
          u < ((j % cols + 1 : ℕ) : ℚ) / (cols : ℚ) ∧
          ((j / cols : ℕ) : ℚ) / (rows : ℚ) < v ∧
          v < ((j / cols + 1 : ℕ) : ℚ) / (rows : ℚ)))) := by
  refine ⟨fun i hi => (create_uvs_segment cols rows n i hi).trans rfl, fun hn => ⟨?_, ?_⟩⟩
  · intro u v hu0 hu1 hv0 hv1
    obtain ⟨cu, hcu, hcu1, hcu2⟩ := cell_cover_1d cols hc u hu0 hu1
    obtain ⟨rv, hrv, hrv1, hrv2⟩ := cell_cover_1d rows hr v hv0 hv1
    refine ⟨cu + rv * cols, ?_, ?_⟩
    · have h2 : (rv + 1) * cols ≤ rows * cols := Nat.mul_le_mul_right cols (by omega)
      have h3 : (rv + 1) * cols = rv * cols + cols := by ring
      have h4 : rows * cols = cols * rows := Nat.mul_comm rows cols
      omega
    · have hmod : (cu + rv * cols) % cols = cu := by
        rw [Nat.add_mul_mod_self_right, Nat.mod_eq_of_lt hcu]
      have hdiv : (cu + rv * cols) / cols = rv := by
        rw [Nat.add_mul_div_right cu rv hc, Nat.div_eq_of_lt hcu, Nat.zero_add]
      rw [hmod, hdiv]
      exact ⟨hcu1, hcu2, hrv1, hrv2⟩
  · intro i j hi hj hij u v hcontra
    obtain ⟨hiu1, hiu2, hiv1, hiv2, hju1, hju2, hjv1, hjv2⟩ := hcontra
    rcases Nat.lt_trichotomy (i % cols) (j % cols) with hc1 | hc1 | hc1
    · exact cell_disjoint_1d cols (i % cols) (j % cols) hc hc1 u hiu2 hju1
    · rcases Nat.lt_trichotomy (i / cols) (j / cols) with hr1 | hr1 | hr1
      · exact cell_disjoint_1d rows (i / cols) (j / cols) hr hr1 v hiv2 hjv1
      · have hieq : i = j := by
          have hdi := Nat.div_add_mod i cols
          have hdj := Nat.div_add_mod j cols
          rw [hc1, hr1] at hdi
          omega
        exact hij hieq
      · exact cell_disjoint_1d rows (j / cols) (i / cols) hr hr1 v hjv2 hiv1
    · exact cell_disjoint_1d cols (j % cols) (i % cols) hc hc1 u hju2 hiu1

/-- Witness for quad_uv_assignment_and_tiling on the 2 x 2 grid, view 1. -/
theorem quad_uv_assignment_and_tiling_check :
    ((0 : ℕ) < 2 ∧ (0 : ℕ) < 2) ∧
    ((create_intersecting_quads_uvs 4 2 2).drop (4 * 1)).take 4 =
      [(((1 % 2 : ℕ) : ℚ) / (2 : ℚ), ((1 / 2 : ℕ) : ℚ) / (2 : ℚ)),
       (((1 % 2 + 1 : ℕ) : ℚ) / (2 : ℚ), ((1 / 2 : ℕ) : ℚ) / (2 : ℚ)),
       (((1 % 2 + 1 : ℕ) : ℚ) / (2 : ℚ), ((1 / 2 + 1 : ℕ) : ℚ) / (2 : ℚ)),
       (((1 % 2 : ℕ) : ℚ) / (2 : ℚ), ((1 / 2 + 1 : ℕ) : ℚ) / (2 : ℚ))] :=
  ⟨⟨by decide, by decide⟩,
    (quad_uv_assignment_and_tiling 4 2 2 (by decide) (by decide)).1 1 (by decide)⟩

theorem pySetSlice_length (a r : List ℚ) (s : ℕ) (h : s + r.length ≤ a.length) :
    (pySetSlice a s (s + r.length) r).length = a.length := by
  simp only [pySetSlice]
  rw [min_eq_left (show s ≤ a.length by omega),
    max_eq_left (show s ≤ s + r.length by omega), min_eq_left h,
    List.length_append, List.length_append, List.length_take, List.length_drop,
    min_eq_left (show s ≤ a.length by omega)]
  omega

theorem pySetSlice_get_lt (a r : List ℚ) (s k : ℕ) (h : s + r.length ≤ a.length)
    (hk : k < s) : (pySetSlice a s (s + r.length) r)[k]? = a[k]? := by
  simp only [pySetSlice]
  rw [min_eq_left (show s ≤ a.length by omega),
    max_eq_left (show s ≤ s + r.length by omega), min_eq_left h]
  rw [List.getElem?_append_left (by
    rw [List.length_append, List.length_take]; omega)]
  rw [List.getElem?_append_left (by rw [List.length_take]; omega)]
  exact List.getElem?_take_of_lt hk

theorem pySetSlice_get_in (a r : List ℚ) (s k : ℕ) (h : s + r.length ≤ a.length)
    (hk1 : s ≤ k) (hk2 : k < s + r.length) :
    (pySetSlice a s (s + r.length) r)[k]? = r[k - s]? := by
  simp only [pySetSlice]
  rw [min_eq_left (show s ≤ a.length by omega),
    max_eq_left (show s ≤ s + r.length by omega), min_eq_left h]
  rw [List.getElem?_append_left (by
    rw [List.length_append, List.length_take]; omega)]
  rw [List.getElem?_append_right (by rw [List.length_take]; omega)]
  rw [List.length_take, min_eq_left (show s ≤ a.length by omega)]

theorem pySetSlice_get_ge (a r : List ℚ) (s k : ℕ) (h : s + r.length ≤ a.length)
    (hk : s + r.length ≤ k) :
    (pySetSlice a s (s + r.length) r)[k]? = a[k]? := by
  simp only [pySetSlice]
  rw [min_eq_left (show s ≤ a.length by omega),
    max_eq_left (show s ≤ s + r.length by omega), min_eq_left h]
  rw [List.getElem?_append_right (by
    rw [List.length_append, List.length_take]; omega)]
  rw [List.length_append, List.length_take, min_eq_left (show s ≤ a.length by omega)]
  rw [List.getElem?_drop]
  congr 1
  omega

theorem row_lt_bound (atlasW gy gx ch : ℕ) (hgx : gx < atlasW) (hch : ch < 4) :
    (gy * atlasW + gx) * 4 + ch < (gy + 1) * atlasW * 4 := by
  have h1 : (gy + 1) * atlasW = gy * atlasW + atlasW := by ring
  omega

theorem row_mono (atlasW a b : ℕ) (hab : a ≤ b) : a * atlasW * 4 ≤ b * atlasW * 4 :=
  Nat.mul_le_mul_right 4 (Nat.mul_le_mul_right atlasW hab)

theorem splice_in_bounds (resX atlasW baseX baseY resY y L rl : ℕ)
    (hbx : baseX + resX ≤ atlasW) (hy : y < resY)
    (hL : (baseY + resY) * atlasW * 4 ≤ L) (hrl : rl ≤ resX * 4) :
    ((baseY + y) * atlasW + baseX) * 4 + rl ≤ L := by
  have h1 : (baseY + y + 1) * atlasW ≤ (baseY + resY) * atlasW :=
    Nat.mul_le_mul_right atlasW (by omega)
  have h2 : (baseY + y + 1) * atlasW = (baseY + y) * atlasW + atlasW := by ring
  omega

theorem copyTile_succ (resX resY atlasW baseX baseY : ℕ) (src atlas : List ℚ) :
    copyTile resX (resY + 1) atlasW baseX baseY src atlas =
      pySetSlice (copyTile resX resY atlasW baseX baseY src atlas)
        (((baseY + resY) * atlasW + baseX) * 4)
        (((baseY + resY) * atlasW + baseX) * 4 +
          ((src.drop (resY * resX * 4)).take (resX * 4)).length)
        ((src.drop (resY * resX * 4)).take (resX * 4)) := by
  unfold copyTile
  rw [List.range_succ, List.foldl_append, List.foldl_cons, List.foldl_nil]

theorem rowData_le (src : List ℚ) (resX y : ℕ) :
    ((src.drop (y * resX * 4)).take (resX * 4)).length ≤ resX * 4 := by
  rw [List.length_take]
  exact min_le_left _ _

theorem copyTile_length (resX atlasW baseX baseY : ℕ) (src : List ℚ)
    (hbx : baseX + resX ≤ atlasW) :
    ∀ (resY : ℕ) (atlas : List ℚ), (baseY + resY) * atlasW * 4 ≤ atlas.length →
      (copyTile resX resY atlasW baseX baseY src atlas).length = atlas.length := by
  intro resY
  induction resY with
  | zero => intro atlas _; rfl
  | succ m ih =>
      intro atlas hL
      have hL' : (baseY + m) * atlasW * 4 ≤ atlas.length :=
        le_trans (row_mono atlasW (baseY + m) (baseY + (m + 1)) (by omega)) hL
      have hlen := ih atlas hL'
      rw [copyTile_succ]
      rw [pySetSlice_length _ _ _ (by
        rw [hlen]
        exact splice_in_bounds resX atlasW baseX baseY (m + 1) m atlas.length _ hbx
          (by omega) hL (rowData_le src resX m))]
      exact hlen

theorem copyTile_get_out (resX atlasW baseX baseY gx gy ch : ℕ) (src : List ℚ)
    (hbx : baseX + resX ≤ atlasW) (hgx : gx < atlasW) (hch : ch < 4) :
    ∀ (resY : ℕ) (atlas : List ℚ), (baseY + resY) * atlasW * 4 ≤ atlas.length →
      (gy < baseY ∨ baseY + resY ≤ gy ∨ gx < baseX ∨ baseX + resX ≤ gx) →
      (copyTile resX resY atlasW baseX baseY src atlas)[(gy * atlasW + gx) * 4 + ch]? =
        atlas[(gy * atlasW + gx) * 4 + ch]? := by
  intro resY
  induction resY with
  | zero => intro atlas _ _; rfl
  | succ m ih =>
      intro atlas hL hout
      have hL' : (baseY + m) * atlasW * 4 ≤ atlas.length :=
        le_trans (row_mono atlasW (baseY + m) (baseY + (m + 1)) (by omega)) hL
      have hout' : gy < baseY ∨ baseY + m ≤ gy ∨ gx < baseX ∨ baseX + resX ≤ gx := by
        rcases hout with h | h | h | h
        · exact Or.inl h
        · exact Or.inr (Or.inl (by omega))
        · exact Or.inr (Or.inr (Or.inl h))
        · exact Or.inr (Or.inr (Or.inr h))
      have hAlen : (copyTile resX m atlasW baseX baseY src atlas).length = atlas.length :=
        copyTile_length resX atlasW baseX baseY src hbx m atlas hL'
      have hin : ((baseY + m) * atlasW + baseX) * 4 +
          ((src.drop (m * resX * 4)).take (resX * 4)).length ≤
          (copyTile resX m atlasW baseX baseY src atlas).length := by
        rw [hAlen]
        exact splice_in_bounds resX atlasW baseX baseY (m + 1) m atlas.length _ hbx
          (by omega) hL (rowData_le src resX m)
      have hbound : (gy * atlasW + gx) * 4 + ch < ((baseY + m) * atlasW + baseX) * 4 ∨
          ((baseY + m) * atlasW + baseX) * 4 +
            ((src.drop (m * resX * 4)).take (resX * 4)).length ≤
            (gy * atlasW + gx) * 4 + ch := by
        have hrl := rowData_le src resX m
        rcases Nat.lt_trichotomy gy (baseY + m) with hgy | hgy | hgy
        · left
          have h1 := row_lt_bound atlasW gy gx ch hgx hch
          have h2 : (gy + 1) * atlasW * 4 ≤ (baseY + m) * atlasW * 4 :=
            row_mono atlasW (gy + 1) (baseY + m) (by omega)
          omega
        · subst hgy
          rcases hout with h | h | h | h
          · omega
          · omega
          · left
            omega
          · right
            omega
        · right
          have h2 : (baseY + m + 1) * atlasW * 4 ≤ gy * atlasW * 4 :=
            row_mono atlasW (baseY + m + 1) gy (by omega)
          have h3 : (baseY + m + 1) * atlasW = (baseY + m) * atlasW + atlasW := by ring
          have h4 := row_lt_bound atlasW gy gx ch hgx hch
          omega
      rw [copyTile_succ]
      rcases hbound with hb | hb
      · rw [pySetSlice_get_lt _ _ _ _ hin hb]
        exact ih atlas hL' hout'
      · rw [pySetSlice_get_ge _ _ _ _ hin hb]
        exact ih atlas hL' hout'

theorem copyTile_get_in (resX atlasW baseX baseY x ch : ℕ) (src : List ℚ)
    (hbx : baseX + resX ≤ atlasW) (hx : x < resX) (hch : ch < 4) :
    ∀ (resY y : ℕ) (atlas : List ℚ), y < resY →
      resX * resY * 4 ≤ src.length →
      (baseY + resY) * atlasW * 4 ≤ atlas.length →
      (copyTile resX resY atlasW baseX baseY src atlas)[((baseY + y) * atlasW + baseX + x) * 4 + ch]? = src[(y * resX + x) * 4 + ch]? := by
  intro resY
  induction resY with
  | zero => intro y atlas hy; omega
  | succ m ih =>
      intro y atlas hy hsrc hL
      have hL' : (baseY + m) * atlasW * 4 ≤ atlas.length :=
        le_trans (row_mono atlasW (baseY + m) (baseY + (m + 1)) (by omega)) hL
      have hAlen : (copyTile resX m atlasW baseX baseY src atlas).length = atlas.length :=
        copyTile_length resX atlasW baseX baseY src hbx m atlas hL'
      have hin : ((baseY + m) * atlasW + baseX) * 4 +
          ((src.drop (m * resX * 4)).take (resX * 4)).length ≤
          (copyTile resX m atlasW baseX baseY src atlas).length := by
        rw [hAlen]
        exact splice_in_bounds resX atlasW baseX baseY (m + 1) m atlas.length _ hbx
          (by omega) hL (rowData_le src resX m)
      rw [copyTile_succ]
      rcases Nat.lt_or_ge y m with hym | hym
      · have hsrc' : resX * m * 4 ≤ src.length := by
          have hmono : resX * m * 4 ≤ resX * (m + 1) * 4 :=
            Nat.mul_le_mul_right 4 (Nat.mul_le_mul_left resX (by omega))
          omega
        have hk : ((baseY + y) * atlasW + baseX + x) * 4 + ch <
            ((baseY + m) * atlasW + baseX) * 4 := by
          have h2 : (baseY + y + 1) * atlasW = (baseY + y) * atlasW + atlasW := by ring
          have h3 : (baseY + y + 1) * atlasW ≤ (baseY + m) * atlasW :=
            Nat.mul_le_mul_right atlasW (by omega)
          omega
        rw [pySetSlice_get_lt _ _ _ _ hin hk]
        exact ih y atlas hym hsrc' hL'
      · have hyeq : y = m := by omega
        subst hyeq
        have hrlen : ((src.drop (y * resX * 4)).take (resX * 4)).length = resX * 4 := by
          rw [List.length_take, List.length_drop]
          have hcm : y * resX = resX * y := Nat.mul_comm y resX
          have hsum : resX * (y + 1) * 4 = resX * y * 4 + resX * 4 := by ring
          omega
        have hk1 : ((baseY + y) * atlasW + baseX) * 4 ≤
            ((baseY + y) * atlasW + baseX + x) * 4 + ch := by omega
        have hk2 : ((baseY + y) * atlasW + baseX + x) * 4 + ch <
            ((baseY + y) * atlasW + baseX) * 4 +
              ((src.drop (y * resX * 4)).take (resX * 4)).length := by
          rw [hrlen]
          omega
        rw [pySetSlice_get_in _ _ _ _ hin hk1 hk2]
        have hidx : ((baseY + y) * atlasW + baseX + x) * 4 + ch -
            ((baseY + y) * atlasW + baseX) * 4 = x * 4 + ch := by omega
        rw [hidx]
        rw [List.getElem?_take_of_lt (by omega : x * 4 + ch < resX * 4)]
        rw [List.getElem?_drop]
        congr 1
        have : (y * resX + x) * 4 = y * resX * 4 + x * 4 := by ring
        omega

theorem cellW_bound (resX cols atlasW idx : ℕ) (hc : 0 < cols) (hAW : atlasW = resX * cols) :
    idx % cols * resX + resX ≤ atlasW := by
  have h1 : idx % cols < cols := Nat.mod_lt idx hc
  have h2 : (idx % cols + 1) * resX ≤ cols * resX := Nat.mul_le_mul_right resX (by omega)
  have h3 : (idx % cols + 1) * resX = idx % cols * resX + resX := by ring
  have h4 : cols * resX = resX * cols := Nat.mul_comm cols resX
  omega

theorem cellH_bound (resY cols rows atlasW idx L : ℕ) (hc : 0 < cols)
    (hidx : idx < cols * rows) (hlen : L = atlasW * (resY * rows) * 4) :
    (idx / cols * resY + resY) * atlasW * 4 ≤ L := by
  have hrow : idx / cols < rows := by
    rw [Nat.div_lt_iff_lt_mul hc]
    calc idx < cols * rows := hidx
    _ = rows * cols := Nat.mul_comm cols rows
  have h3 : (idx / cols + 1) * resY ≤ rows * resY := Nat.mul_le_mul_right resY (by omega)
  have h4 : (idx / cols + 1) * resY * atlasW * 4 ≤ rows * resY * atlasW * 4 :=
    row_mono atlasW _ _ h3
  have h6 : (idx / cols * resY + resY) * atlasW * 4 = (idx / cols + 1) * resY * atlasW * 4 := by
    ring
  have h7 : rows * resY * atlasW * 4 = atlasW * (resY * rows) * 4 := by ring
  omega

theorem cell_point_outside (resX resY cols x y i m : ℕ)
    (hx : x < resX) (hy : y < resY) (hne : m ≠ i) :
    i / cols * resY + y < m / cols * resY ∨
    m / cols * resY + resY ≤ i / cols * resY + y ∨
    i % cols * resX + x < m % cols * resX ∨
    m % cols * resX + resX ≤ i % cols * resX + x := by
  rcases Nat.lt_trichotomy (m % cols) (i % cols) with hcc | hcc | hcc
  · right; right; right
    have h1 : (m % cols + 1) * resX ≤ i % cols * resX := Nat.mul_le_mul_right resX (by omega)
    have h2 : (m % cols + 1) * resX = m % cols * resX + resX := by ring
    omega
  · rcases Nat.lt_trichotomy (m / cols) (i / cols) with hrr | hrr | hrr
    · right; left
      have h1 : (m / cols + 1) * resY ≤ i / cols * resY := Nat.mul_le_mul_right resY (by omega)
      have h2 : (m / cols + 1) * resY = m / cols * resY + resY := by ring
      omega
    · exfalso
      apply hne
      have hdi := Nat.div_add_mod m cols
      have hdj := Nat.div_add_mod i cols
      rw [hcc, hrr] at hdi
      omega
    · left
      have h1 : (i / cols + 1) * resY ≤ m / cols * resY := Nat.mul_le_mul_right resY (by omega)
      have h2 : (i / cols + 1) * resY = i / cols * resY + resY := by ring
      omega
  · right; right; left
    have h1 : (i % cols + 1) * resX ≤ m % cols * resX := Nat.mul_le_mul_right resX (by omega)
    have h2 : (i % cols + 1) * resX = i % cols * resX + resX := by ring
    omega

theorem packTiles_length (resX resY atlasW cols rows : ℕ) (hc : 0 < cols)
    (hAW : atlasW = resX * cols) :
    ∀ (srcs : List (Option (List ℚ))) (idx : ℕ) (atlas : List ℚ),
      idx + srcs.length ≤ cols * rows →
      atlas.length = atlasW * (resY * rows) * 4 →
      (packTiles resX resY atlasW cols srcs idx atlas).length = atlas.length := by
  intro srcs
  induction srcs with
  | nil => intro idx atlas _ _; rfl
  | cons hd rest ih =>
      intro idx atlas hidx hlen
      simp only [List.length_cons] at hidx
      cases hd with
      | none =>
          rw [packTiles]
          exact ih (idx + 1) atlas (by omega) hlen
      | some src =>
          rw [packTiles]
          have hcw := cellW_bound resX cols atlasW idx hc hAW
          have hcell := cellH_bound resY cols rows atlasW idx atlas.length hc (by omega) hlen
          have hclen : (copyTile resX resY atlasW (idx % cols * resX) (idx / cols * resY)
              src atlas).length = atlas.length :=
            copyTile_length resX atlasW (idx % cols * resX) (idx / cols * resY) src hcw
              resY atlas hcell
          rw [ih (idx + 1) _ (by omega) (hclen.trans hlen)]
          exact hclen

theorem packTiles_get_out (resX resY atlasW cols rows gx gy ch : ℕ) (hc : 0 < cols)
    (hAW : atlasW = resX * cols) (hgx : gx < atlasW) (hch : ch < 4) :
    ∀ (srcs : List (Option (List ℚ))) (idx : ℕ) (atlas : List ℚ),
      idx + srcs.length ≤ cols * rows →
      atlas.length = atlasW * (resY * rows) * 4 →
      (∀ j, j < srcs.length → srcs[j]? = some none ∨
        gy < (idx + j) / cols * resY ∨ (idx + j) / cols * resY + resY ≤ gy ∨
        gx < (idx + j) % cols * resX ∨ (idx + j) % cols * resX + resX ≤ gx) →
      (packTiles resX resY atlasW cols srcs idx atlas)[(gy * atlasW + gx) * 4 + ch]? =
        atlas[(gy * atlasW + gx) * 4 + ch]? := by
  intro srcs
  induction srcs with
  | nil => intro idx atlas _ _ _; rfl
  | cons hd rest ih =>
      intro idx atlas hidx hlen hout
      simp only [List.length_cons] at hidx
      have hout' : ∀ j, j < rest.length → rest[j]? = some none ∨
          gy < (idx + 1 + j) / cols * resY ∨ (idx + 1 + j) / cols * resY + resY ≤ gy ∨
          gx < (idx + 1 + j) % cols * resX ∨ (idx + 1 + j) % cols * resX + resX ≤ gx := by
        intro j hj
        have h := hout (j + 1) (by simp only [List.length_cons]; omega)
        have heq : idx + (j + 1) = idx + 1 + j := by omega
        rw [heq] at h
        simpa using h
      cases hd with
      | none =>
          rw [packTiles]
          exact ih (idx + 1) atlas (by omega) hlen hout'
      | some src =>
          rw [packTiles]
          have hj0 := hout 0 (by simp only [List.length_cons]; omega)
          have houtside : gy < (idx + 0) / cols * resY ∨
              (idx + 0) / cols * resY + resY ≤ gy ∨
              gx < (idx + 0) % cols * resX ∨ (idx + 0) % cols * resX + resX ≤ gx := by
            rcases hj0 with h | h
            · simp at h
            · exact h
          rw [Nat.add_zero] at houtside
          have hcw := cellW_bound resX cols atlasW idx hc hAW
          have hcell := cellH_bound resY cols rows atlasW idx atlas.length hc (by omega) hlen
          have hclen : (copyTile resX resY atlasW (idx % cols * resX) (idx / cols * resY)
              src atlas).length = atlas.length :=
            copyTile_length resX atlasW (idx % cols * resX) (idx / cols * resY) src hcw
              resY atlas hcell
          rw [ih (idx + 1) _ (by omega) (hclen.trans hlen) hout']
          exact copyTile_get_out resX atlasW (idx % cols * resX) (idx / cols * resY)
            gx gy ch src hcw hgx hch resY atlas hcell houtside

theorem packTiles_get_in (resX resY atlasW cols rows x y ch : ℕ) (hc : 0 < cols)
    (hAW : atlasW = resX * cols) (hx : x < resX) (hy : y < resY) (hch : ch < 4) :
    ∀ (srcs : List (Option (List ℚ))) (idx i0 : ℕ) (src : List ℚ) (atlas : List ℚ),
      idx + srcs.length ≤ cols * rows →
      atlas.length = atlasW * (resY * rows) * 4 →
      srcs[i0]? = some (some src) →
      resX * resY * 4 ≤ src.length →
      (packTiles resX resY atlasW cols srcs idx atlas)[(((idx + i0) / cols * resY + y) * atlasW + ((idx + i0) % cols * resX + x)) * 4 + ch]? = src[(y * resX + x) * 4 + ch]? := by
  intro srcs
  induction srcs with
  | nil =>
      intro idx i0 src atlas _ _ hsrc _
      simp at hsrc
  | cons hd rest ih =>
      intro idx i0 src atlas hidx hlen hsrc hslen
      simp only [List.length_cons] at hidx
      cases i0 with
      | zero =>
          have hhd : hd = some src := by simpa using hsrc
          subst hhd
          rw [packTiles]
          simp only [Nat.add_zero]
          have hcw := cellW_bound resX cols atlasW idx hc hAW
          have hcell := cellH_bound resY cols rows atlasW idx atlas.length hc (by omega) hlen
          have hgx : idx % cols * resX + x < atlasW := by
            have := cellW_bound resX cols atlasW idx hc hAW
            omega
          have hclen : (copyTile resX resY atlasW (idx % cols * resX) (idx / cols * resY)
              src atlas).length = atlas.length :=
            copyTile_length resX atlasW (idx % cols * resX) (idx / cols * resY) src hcw
              resY atlas hcell
          have hframe := packTiles_get_out resX resY atlasW cols rows
            (idx % cols * resX + x) (idx / cols * resY + y) ch hc hAW hgx hch rest (idx + 1)
            (copyTile resX resY atlasW (idx % cols * resX) (idx / cols * resY) src atlas)
            (by omega) (hclen.trans hlen)
            (fun j hj => Or.inr
              (cell_point_outside resX resY cols x y idx (idx + 1 + j) hx hy (by omega)))
          rw [hframe]
          have hcopy := copyTile_get_in resX atlasW (idx % cols * resX) (idx / cols * resY)
            x ch src hcw hx hch resY y atlas hy hslen hcell
          rw [← Nat.add_assoc]
          exact hcopy
      | succ j =>
          have hsrc' : rest[j]? = some (some src) := by simpa using hsrc
          have hidxeq : idx + (j + 1) = idx + 1 + j := by omega
          rw [hidxeq]
          cases hd with
          | none =>
              rw [packTiles]
              exact ih (idx + 1) j src atlas (by omega) hlen hsrc' hslen
          | some src2 =>
              rw [packTiles]
              have hcw := cellW_bound resX cols atlasW idx hc hAW
              have hcell := cellH_bound resY cols rows atlasW idx atlas.length hc
                (by omega) hlen
              have hclen : (copyTile resX resY atlasW (idx % cols * resX) (idx / cols * resY)
                  src2 atlas).length = atlas.length :=
                copyTile_length resX atlasW (idx % cols * resX) (idx / cols * resY) src2 hcw
                  resY atlas hcell
              exact ih (idx + 1) j src _ (by omega) (hclen.trans hlen) hsrc' hslen

/-- Flat index, in the atlas RGBA list, of channel ch of the atlas pixel at
(col * res_x + x, row * res_y + y) where col = i mod cols and
row = i div cols: ((row * res_y + y) * width + col * res_x + x) * 4 + ch. -/
def cellIndex (width cols resX resY i x y ch : ℕ) : ℕ :=
  ((i / cols * resY + y) * width + (i % cols * resX + x)) * 4 + ch

theorem generate_texture_atlas_eq (srcs : List (Option (List ℚ))) (resX resY count : ℕ)
    (hcount : 1 ≤ count) :
    generate_texture_atlas srcs resX resY count =
      { pixels := packTiles resX resY (resX * ceilSqrt count) (ceilSqrt count) srcs 0
          (List.replicate ((resX * ceilSqrt count) *
            (resY * ((count + ceilSqrt count - 1) / ceilSqrt count)) * 4) 0)
        width := resX * ceilSqrt count
        height := resY * ((count + ceilSqrt count - 1) / ceilSqrt count)
        cols := ceilSqrt count
        rows := (count + ceilSqrt count - 1) / ceilSqrt count } := by
  have hc := ceilSqrt_pos count hcount
  simp only [generate_texture_atlas]
  rw [if_neg hc.ne']

theorem cell_pos_lt (resX resY cols rows x y ch i : ℕ) (hc : 0 < cols)
    (hx : x < resX) (hy : y < resY) (hch : ch < 4) (hi : i < cols * rows) :
    ((i / cols * resY + y) * (resX * cols) + (i % cols * resX + x)) * 4 + ch <
      (resX * cols) * (resY * rows) * 4 := by
  have hgx : i % cols * resX + x < resX * cols := by
    have := cellW_bound resX cols (resX * cols) i hc rfl
    omega
  have hrow : i / cols < rows := by
    rw [Nat.div_lt_iff_lt_mul hc]
    calc i < cols * rows := hi
    _ = rows * cols := Nat.mul_comm cols rows
  have hgy : i / cols * resY + y < resY * rows := by
    have h1 : (i / cols + 1) * resY ≤ rows * resY := Nat.mul_le_mul_right resY (by omega)
    have h2 : (i / cols + 1) * resY = i / cols * resY + resY := by ring
    have h3 : rows * resY = resY * rows := Nat.mul_comm rows resY
    omega
  have h4 := row_lt_bound (resX * cols) (i / cols * resY + y) (i % cols * resX + x) ch hgx hch
  have h5 : (i / cols * resY + y + 1) * (resX * cols) * 4 ≤
      (resY * rows) * (resX * cols) * 4 := row_mono (resX * cols) _ _ (by omega)
  have h6 : (resY * rows) * (resX * cols) * 4 = (resX * cols) * (resY * rows) * 4 := by ring
  omega

/-- Claim C1 (confirmed): when source view i has exactly res_x * res_y RGBA
samples, the composited atlas (zero-initialized) holds source pixel (x, y)
of view i at atlas position (col * res_x + x, row * res_y + y) with
col = i mod cols, row = i div cols, whatever the other source buffers are. -/
theorem atlas_places_matching_tiles (srcs : List (Option (List ℚ)))
    (resX resY count i x y ch : ℕ) (src : List ℚ)
    (hcount : srcs.length = count) (hi : i < count)
    (hsrc : srcs[i]? = some (some src)) (hlen : src.length = resX * resY * 4)
    (hx : x < resX) (hy : y < resY) (hch : ch < 4) :
    (generate_texture_atlas srcs resX resY count).pixels[cellIndex (generate_texture_atlas srcs resX resY count).width (generate_texture_atlas srcs resX resY count).cols resX resY i x y ch]? = src[(y * resX + x) * 4 + ch]? := by
  have hN : 1 ≤ count := by omega
  rw [generate_texture_atlas_eq srcs resX resY count hN]
  have hc := ceilSqrt_pos count hN
  have hmain := packTiles_get_in resX resY (resX * ceilSqrt count) (ceilSqrt count)
    ((count + ceilSqrt count - 1) / ceilSqrt count) x y ch hc rfl hx hy hch
    srcs 0 i src
    (List.replicate ((resX * ceilSqrt count) *
      (resY * ((count + ceilSqrt count - 1) / ceilSqrt count)) * 4) 0)
    (by
      have := grid_covers count hN
      omega)
    (by rw [List.length_replicate])
    hsrc (by omega)
  simpa [cellIndex] using hmain

/-- Witness for atlas_places_matching_tiles: two 1 x 1 tiles, view 1,
channel 2. -/
theorem atlas_places_matching_tiles_check :
    (1 : ℕ) < 2 ∧
    (generate_texture_atlas [some [5, 6, 7, 8], some [9, 10, 11, 12]] 1 1 2).pixels[cellIndex (generate_texture_atlas [some [5, 6, 7, 8], some [9, 10, 11, 12]] 1 1 2).width (generate_texture_atlas [some [5, 6, 7, 8], some [9, 10, 11, 12]] 1 1 2).cols 1 1 1 0 0 2]? = ([9, 10, 11, 12] : List ℚ)[(0 * 1 + 0) * 4 + 2]? :=
  ⟨by decide,
    atlas_places_matching_tiles [some [5, 6, 7, 8], some [9, 10, 11, 12]] 1 1 2 1 0 0 2
      [9, 10, 11, 12] rfl (by decide) rfl rfl (by decide) (by decide) (by decide)⟩

/-- Claim C3 counterexample: a source buffer of 4 samples in a 1 x 2 cell
(8 samples expected) is not skipped: its pixel lands in the cell, which is
therefore not fully transparent, and no exception is raised to be recorded. -/
theorem mismatched_tile_not_left_transparent :
    ([1, 1, 1, 1] : List ℚ).length ≠ 1 * 2 * 4 ∧
    (generate_texture_atlas [some [1, 1, 1, 1]] 1 2 1).pixels =
      [1, 1, 1, 1, 0, 0, 0, 0] ∧
    (generate_texture_atlas [some [1, 1, 1, 1]] 1 2 1).pixels[0]? = some 1 ∧
    (1 : ℚ) ≠ 0 :=
  ⟨by decide, by decide, by decide, by decide⟩

/-- Claim C3 amended: the per-tile try/except only skips a tile whose image
load raises: that cell stays fully transparent (all zeros) and packing
continues, every remaining well-sized tile being composited correctly.  A
buffer that loads with a size other than res_x * res_y is not detected: its
samples are sliced with the res_x stride and written into the cell, which is
then not left fully transparent (see the counterexample). -/
theorem load_failure_tile_skipped_others_packed (srcs : List (Option (List ℚ)))
    (resX resY count i : ℕ)
    (hcount : srcs.length = count) (hi : i < count) (hnone : srcs[i]? = some none) :
    (∀ x y ch, x < resX → y < resY → ch < 4 →
      (generate_texture_atlas srcs resX resY count).pixels[cellIndex (generate_texture_atlas srcs resX resY count).width (generate_texture_atlas srcs resX resY count).cols resX resY i x y ch]? = some 0) ∧
    (∀ j src2, j < count → srcs[j]? = some (some src2) →
      src2.length = resX * resY * 4 →
      ∀ x y ch, x < resX → y < resY → ch < 4 →
        (generate_texture_atlas srcs resX resY count).pixels[cellIndex (generate_texture_atlas srcs resX resY count).width (generate_texture_atlas srcs resX resY count).cols resX resY j x y ch]? = src2[(y * resX + x) * 4 + ch]?) := by
  have hN : 1 ≤ count := by omega
  have hc := ceilSqrt_pos count hN
  constructor
  · intro x y ch hx hy hch
    rw [generate_texture_atlas_eq srcs resX resY count hN]
    have hframe := packTiles_get_out resX resY (resX * ceilSqrt count) (ceilSqrt count)
      ((count + ceilSqrt count - 1) / ceilSqrt count)
      (i % ceilSqrt count * resX + x) (i / ceilSqrt count * resY + y) ch hc rfl
      (by
        have := cellW_bound resX (ceilSqrt count) (resX * ceilSqrt count) i hc rfl
        omega)
      hch srcs 0
      (List.replicate ((resX * ceilSqrt count) *
        (resY * ((count + ceilSqrt count - 1) / ceilSqrt count)) * 4) 0)
      (by
        have := grid_covers count hN
        omega)
      (by rw [List.length_replicate])
      (fun j hj => by
        by_cases hji : j = i
        · subst hji
          exact Or.inl hnone
        · exact Or.inr
            (cell_point_outside resX resY (ceilSqrt count) x y i (0 + j) hx hy (by omega)))
    have hrep : (List.replicate ((resX * ceilSqrt count) *
        (resY * ((count + ceilSqrt count - 1) / ceilSqrt count)) * 4) (0 : ℚ))[((i / ceilSqrt count * resY + y) * (resX * ceilSqrt count) + (i % ceilSqrt count * resX + x)) * 4 + ch]? = some 0 := by
      rw [List.getElem?_replicate]
      rw [if_pos]
      exact cell_pos_lt resX resY (ceilSqrt count)
        ((count + ceilSqrt count - 1) / ceilSqrt count) x y ch i hc hx hy hch
        (lt_of_lt_of_le hi (grid_covers count hN))
    simpa [cellIndex] using hframe.trans hrep
  · intro j src2 hj hsrc2 hlen2 x y ch hx hy hch
    rw [generate_texture_atlas_eq srcs resX resY count hN]
    have hmain := packTiles_get_in resX resY (resX * ceilSqrt count) (ceilSqrt count)
      ((count + ceilSqrt count - 1) / ceilSqrt count) x y ch hc rfl hx hy hch
      srcs 0 j src2
      (List.replicate ((resX * ceilSqrt count) *
        (resY * ((count + ceilSqrt count - 1) / ceilSqrt count)) * 4) 0)
      (by
        have := grid_covers count hN
        omega)
      (by rw [List.length_replicate])
      hsrc2 (by omega)
    simpa [cellIndex] using hmain

/-- Witness for load_failure_tile_skipped_others_packed: tile 0 failed to
load, tile 1 well sized; cell 0 is transparent. -/
theorem load_failure_tile_skipped_others_packed_check :
    (0 : ℕ) < 2 ∧
    ([none, some [2, 3, 4, 5]] : List (Option (List ℚ)))[0]? = some none ∧
    (generate_texture_atlas [none, some [2, 3, 4, 5]] 1 1 2).pixels[cellIndex (generate_texture_atlas [none, some [2, 3, 4, 5]] 1 1 2).width (generate_texture_atlas [none, some [2, 3, 4, 5]] 1 1 2).cols 1 1 0 0 0 0]? = some 0 :=
  ⟨by decide, by decide,
    (load_failure_tile_skipped_others_packed [none, some [2, 3, 4, 5]] 1 1 2 0
      rfl (by decide) rfl).1 0 0 0 (by decide) (by decide) (by decide)⟩

end ImpostorGen
